import Mathlib

/-
Verification development for the `concerto` repository (concerto_v4.py and
concerto_classes.py).  The definitions below are a shallow embedding of the
`ConcertoSection` class: the Verifier (shape discovery and validation), the
Reconciler (`process_updates` and its helpers) and the lifecycle manager
(`retire_old_files`).

Modelling conventions:
  * Python strings are modelled as Lean `String`, with the Python operations
    `startswith` / `endswith` / `strip` / slicing modelled character-wise
    over `String.data` (Lean core's byte-position-based `String.startsWith`
    etc. are definitionally opaque, so we spell out the character-level
    definitions, which match Python's semantics on these inputs).
  * A log call `message("...")` is modelled as a `LogLine`: the source
    prefixes failure lines with the marker character "~" and data-quality
    lines with "@"; the marker is stored in its own field and the rest of
    the message in `text`.  Messages interpolating run-time values are
    reproduced up to those values; the per-row "@" diagnostics inside
    `verify_key_field` and the discovery-time "is locked" lines are not
    modelled (no claim mentions them).
  * A feature class is a field-name list plus a list of rows, each row a
    list of attribute values (`FC`).  Cursors become list traversals in
    source order; `arcpy.Delete_management` / `updateRow` / `Append` become
    the corresponding pure list operations, with Boolean oracles for the
    operations whose failure the source catches and tolerates.
  * The transcription of `concerto_classes.py` in this repository carries a
    few token-level slips that would prevent the module from even parsing or
    running (line 385 `arcpy.ListFields(self,poly_fc)` for
    `arcpy.ListFields(self.poly_fc)`, line 463 `sef` for `self`, an
    unbalanced parenthesis on line 465, and the file is truncated inside the
    unused `Sandbox` class).  These are read as their evident forms, exactly
    as the same expressions are written correctly elsewhere in the file;
    each is flagged again at the definition it touches.
-/

namespace Concerto

/-- Python `s.startswith(p)`, character-wise. -/
def strStartsWith (s p : String) : Bool := p.data.isPrefixOf s.data

/-- Python `s.endswith(p)`, character-wise. -/
def strEndsWith (s p : String) : Bool := p.data.isSuffixOf s.data

/-- Python `s.strip()`: surrounding whitespace removed, character-wise. -/
def strTrim (s : String) : String :=
  ⟨((s.data.dropWhile Char.isWhitespace).reverse.dropWhile Char.isWhitespace).reverse⟩

/-- Python `s[:-n]` (for `n ≤ len(s)` this drops the final `n` characters). -/
def strDropRight (s : String) (n : Nat) : String := ⟨s.data.take (s.data.length - n)⟩

/-- One `message(...)` call.  `marker` is the leading category character of
the logged text: "~" for failure lines, "@" for data-quality lines, "" for
informational lines; `text` is the rest of the message. -/
structure LogLine where
  marker : String
  text : String
deriving DecidableEq

/-! ## Verifier: discovery (`create_list_of_shapes_to_verify`, `has_lock_file`) -/

/-- Embedding of `ConcertoSection.has_lock_file` (lines 125-134).  The source
takes `shapename = shapefile[:-4]` and reports a lock when the folder listing
contains any name that starts with `shapename` and ends with `"lock"`.  (The
"is locked. Skipping verification" log line is not modelled.) -/
def has_lock_file (names : List String) (shapefile : String) : Bool :=
  let shapename := strDropRight shapefile 4
  names.any (fun n => strStartsWith n shapename && strEndsWith n "lock")

/-- Embedding of `ConcertoSection.create_list_of_shapes_to_verify`
(lines 136-142): names ending `".shp"`, not starting `"__"`, with no lock
file reported by `has_lock_file`, in listing order. -/
def create_list_of_shapes_to_verify (names : List String) : List String :=
  names.filter (fun item =>
    strEndsWith item ".shp" && !strStartsWith item "__" && !has_lock_file names item)

/-- Reading of the spec claim C8's lock rule, following the spec's scenario
"a file named `X.shp` with a lock-file `X.shp.lock`": a same-stem lock-file
sibling of `item` is the name `item ++ ".lock"` itself appearing in the
listing. -/
def same_stem_lock_spec (names : List String) (item : String) : Bool :=
  names.contains (item ++ ".lock")

/-- Candidate list as claim C8 words it: names ending in the shapefile
extension, not double-prefixed, with no same-stem lock-file sibling. -/
def candidates_spec (names : List String) : List String :=
  names.filter (fun item =>
    strEndsWith item ".shp" && !strStartsWith item "__" && !same_stem_lock_spec names item)

/-! ## Verifier: row validation (`verify_key_field`) -/

/-- Embedding of `ConcertoSection.verify_key_field` (lines 144-165) on the
column of key-field values.  The source executes `row[0].strip()` but never
stores the result (`_stripped` below is computed and discarded, exactly as in
the source), then `ucursor.updateRow(row)` writes the *unchanged* value back,
and the validity test is `len(row[0]) > 1` on the untrimmed value.  Returns
(key column after the update-cursor pass, valid_rows, invalid_rows). -/
def verify_key_field : List String → List String × Nat × Nat
  | [] => ([], 0, 0)
  | v :: rest =>
    let _stripped := strTrim v
    let r := verify_key_field rest
    if 1 < v.length then (v :: r.1, r.2.1 + 1, r.2.2)
    else (v :: r.1, r.2.1, r.2.2 + 1)

/-- Claim C6's reading of `verify_key_field` (and of that function's own
docstring "Strips whitespace"): every inspected key value is replaced by its
trimmed form, and a row is valid exactly when the trimmed value has length
greater than 1. -/
def verify_key_field_spec : List String → List String × Nat × Nat
  | [] => ([], 0, 0)
  | v :: rest =>
    let t := strTrim v
    let r := verify_key_field_spec rest
    if 1 < t.length then (t :: r.1, r.2.1 + 1, r.2.2)
    else (t :: r.1, r.2.1, r.2.2 + 1)

/-! ## Verifier: whole-file screening (`verify_shapes`, `del_duds`) -/

/-- What one candidate shapefile looks like when read: its attribute field
names, the column of key-field values, and whether reading it succeeds at
all (`readable = false` models the `RuntimeError` caught at lines 205-209). -/
structure ShapeData where
  fields : List String
  keyRows : List String
  readable : Bool

/-- An input folder: the directory listing (in `os.listdir` order) and the
shapefile data behind each name. -/
structure Folder where
  names : List String
  content : String → ShapeData

/-- The branch of `verify_shapes` (lines 176-204) that appends `item` to
`good_list`: readable, at least one field, key field present, and
`valid_rows > 0` (the source tests `valid_rows <= 0` for the dud branch). -/
def isGoodFile (folder : Folder) (keyField item : String) : Bool :=
  let d := folder.content item
  d.readable && !d.fields.isEmpty && d.fields.contains keyField &&
    !((verify_key_field d.keyRows).2.1 == 0)

/-- The branches of `verify_shapes` that append `item` to `dud_list`:
readable but with no fields, or missing the key field, or with zero valid
rows.  An unreadable file lands in neither list. -/
def isDudFile (folder : Folder) (keyField item : String) : Bool :=
  let d := folder.content item
  d.readable && (d.fields.isEmpty || !d.fields.contains keyField ||
    (verify_key_field d.keyRows).2.1 == 0)

/-- The single file-level log line `verify_shapes` emits for `item`,
following the source's branch cascade (lines 176-209). -/
def verify_message (folder : Folder) (keyField item : String) : LogLine :=
  let d := folder.content item
  if !d.readable then ⟨"~", "Unable to attempt verification on " ++ item⟩
  else if d.fields.isEmpty then ⟨"~", item ++ " has no fields. Added to dud list"⟩
  else if !d.fields.contains keyField then
    ⟨"~", "Field " ++ keyField ++ " not found. Added to dud list"⟩
  else
    let r := verify_key_field d.keyRows
    if r.2.1 == 0 then ⟨"~", item ++ " has no valid rows. Added to dud list"⟩
    else if 0 < r.2.2 then
      ⟨"", "Verified " ++ item ++ " with " ++ toString r.2.1 ++ " valid and " ++
        toString r.2.2 ++ " invalid shape(s)"⟩
    else ⟨"", "Completed verifying " ++ item ++ " with " ++ toString r.2.1 ++ " valid shape(s)"⟩

/-- Embedding of `ConcertoSection.del_duds` (lines 214-232): one "@" log
line per dud.  The `arcpy.Delete_management` call is commented out in the
source ("Not comfortable deleting"), so no file is removed. -/
def del_duds (dud_list : List String) : List LogLine :=
  dud_list.map (fun item => ⟨"@", item ++ " was malformed. Please investigate"⟩)

/-- Result of `verify_shapes`: the returned `good_list`, the `dud_list`, the
folder listing after the run (no source operation in the verification path
deletes or renames a file, so it is the input listing), and the log. -/
structure VerifyResult where
  good : List String
  dud : List String
  folderNames : List String
  logs : List LogLine

/-- Embedding of `ConcertoSection.verify_shapes` (lines 167-212).  The
source makes one pass over `create_list_of_shapes_to_verify()`, appending
each item to exactly one of `good_list` / `dud_list` (or to neither when a
`RuntimeError` is caught) and logging one file-level line per item; since
each item's classification depends only on that item's data, the pass is the
filter/map below, in listing order.  `del_duds` runs on the dud list
afterwards. -/
def verify_shapes (folder : Folder) (keyField : String) : VerifyResult :=
  let input_list := create_list_of_shapes_to_verify folder.names
  let good_list := input_list.filter (isGoodFile folder keyField)
  let dud_list := input_list.filter (isDudFile folder keyField)
  { good := good_list
    dud := dud_list
    folderNames := folder.names
    logs := input_list.map (verify_message folder keyField) ++ del_duds dud_list }

/-- The precondition asserted by `ConcertoSection.rename_shape` (line 460):
`assert item.endswith(".shp") and not item.startswith("__")`. -/
def rename_shape_assert (item : String) : Prop :=
  strEndsWith item ".shp" = true ∧ strStartsWith item "__" = false

/-! ## Reconciler (`process_updates` and helpers) -/

/-- A feature class: attribute field names plus rows of attribute values,
each row aligned with `fields`. -/
structure FC where
  fields : List String
  rows : List (List String)
deriving DecidableEq

/-- Python `list.index` as an option: position of the first occurrence of
`f`, `none` when absent (where Python raises `ValueError`). -/
def fieldIndex? (fields : List String) (f : String) : Option Nat :=
  match fields with
  | [] => none
  | g :: gs => if g == f then some 0 else (fieldIndex? gs f).map (· + 1)

/-- The key value a cursor on field `keyField` reads from row `r` of a
feature class with field list `fields`. -/
def rowKey (fields : List String) (keyField : String) (r : List String) : String :=
  match fieldIndex? fields keyField with
  | some i => r.getD i ""
  | none => ""

/-- Embedding of `ConcertoSection.create_master_list` (lines 403-408): the
key values of all live rows, in cursor order. -/
def create_master_list (live : FC) (keyField : String) : List String :=
  live.rows.map (rowKey live.fields keyField)

/-- Embedding of `ConcertoSection.get_index` (lines 410-421): position of
the key field in the candidate's field list; on `ValueError` the source logs
and returns `None`. -/
def get_index (poly : FC) (keyField : String) : Option Nat :=
  fieldIndex? poly.fields keyField

/-- Embedding of `ConcertoSection.delete_record` (lines 423-437): an update
cursor over the live collection deletes every row whose key equals
`del_value`, logging one line per deleted row.  (Per-row delete failures are
caught and logged in the source; this model takes the all-deletes-succeed
path, which is what every claim's "completes successfully" presumes.) -/
def delete_record (keyField : String) (live : FC) (del_value : String) : FC × List LogLine :=
  ({ live with rows := live.rows.filter (fun r => !(rowKey live.fields keyField r == del_value)) },
   (live.rows.filter (fun r => rowKey live.fields keyField r == del_value)).map
     (fun _ => ⟨"", "Old value of " ++ del_value ++ " deleted from live"⟩))

/-- How `arcpy.Append_management(poly_fc, live_fc, "NO_TEST")` lands one
candidate row in the live schema: target fields are matched by name, values
taken from the candidate row, absent fields left null (""). -/
def alignRow (liveFields polyFields : List String) (r : List String) : List String :=
  liveFields.map (fun f =>
    match fieldIndex? polyFields f with
    | some j => r.getD j ""
    | none => "")

/-- The mutable state of the scan loop in `process_updates` (lines 388-394). -/
structure ScanState where
  live : FC
  replacement_records : Nat
  new_records : Nat
  logs : List LogLine

/-- The search-cursor loop of `process_updates` (lines 388-394): for each
candidate row, if its key value is in `check_list` delete every matching
live row and count a replacement, otherwise count a new record. -/
def applyUpdates (keyField : String) (polyindex : Nat) (check_list : List String) :
    List (List String) → ScanState → ScanState
  | [], st => st
  | row :: rest, st =>
    let k := row.getD polyindex ""
    if check_list.contains k then
      let d := delete_record keyField st.live k
      applyUpdates keyField polyindex check_list rest
        { live := d.1
          replacement_records := st.replacement_records + 1
          new_records := st.new_records
          logs := st.logs ++ d.2 }
    else
      applyUpdates keyField polyindex check_list rest
        { st with new_records := st.new_records + 1 }

/-- Proof-side characterisation of the scan loop's deletions: the candidate
key values (read at `polyindex`) that occur in `check_list`, in scan order
with multiplicity. -/
def delKeys (polyindex : Nat) (check_list : List String) (rows : List (List String)) :
    List String :=
  (rows.map (fun r => r.getD polyindex "")).filter check_list.contains

/-- Result of one `process_updates` run: the live collection afterwards, the
counts the success message reports, the log lines the method itself emitted,
and whether an exception escaped the method (`err = true`; the caller
`wrapper` catches it and logs its own line). -/
structure PUResult where
  live : FC
  new_records : Nat
  replacement_records : Nat
  logs : List LogLine
  err : Bool
deriving DecidableEq

/-- Embedding of `ConcertoSection.process_updates` (lines 364-401), with the
candidate set `poly_fc` given as an existence flag plus contents.  Faithful
to the source's order of operations: `GetCount_management(self.poly_fc)` is
executed (line 377) *before* the `arcpy.Exists(self.poly_fc)` test (line
379), and raises when the candidate set does not exist, so the existence
disjunct of line 379 is unreachable for its purpose; when `get_index`
returns `None` the scan's first access `row[polyindex]` raises `TypeError`
before any live row is touched.  (Line 385's `arcpy.ListFields(self,poly_fc)`
is read as `arcpy.ListFields(self.poly_fc)`, as written correctly on lines
416-417; the field-name lists bound there only feed the cursors.)  The final
`Append_management(poly_fc, live_fc, "NO_TEST")` bulk-appends every candidate
row; this model takes its success path, which is what the claims condition
on. -/
def process_updates (keyField : String) (polyExists : Bool) (poly live : FC) : PUResult :=
  let logs0 : List LogLine := [⟨"", "Processing Updates"⟩]
  if polyExists = false then
    { live := live, new_records := 0, replacement_records := 0, logs := logs0, err := true }
  else
    let number_to_process := poly.rows.length
    if polyExists = false ∨ number_to_process < 1 then
      { live := live, new_records := 0, replacement_records := 0
        logs := logs0 ++ [⟨"", "No updates to process"⟩], err := false }
    else
      let check_list := create_master_list live keyField
      match get_index poly keyField with
      | none =>
        { live := live, new_records := 0, replacement_records := 0
          logs := logs0 ++ [⟨"~", "Unable to find " ++ keyField ++ " in poly"⟩], err := true }
      | some polyindex =>
        let st := applyUpdates keyField polyindex check_list poly.rows
          { live := live, replacement_records := 0, new_records := 0, logs := logs0 }
        { live := { fields := st.live.fields
                    rows := st.live.rows ++ poly.rows.map (alignRow live.fields poly.fields) }
          new_records := st.new_records
          replacement_records := st.replacement_records
          logs := st.logs ++ [⟨"", toString number_to_process ++ " shapes added to live. " ++
            toString st.new_records ++ " new and " ++
            toString st.replacement_records ++ " replacements"⟩]
          err := false }

/-! ## Lifecycle manager (`retire_old_files`) -/

/-- Embedding of `ConcertoSection.retire_old_files` (lines 474-495): every
listed file whose name starts `"__"` and ends `".shp"` and whose age in days
is at least 30 is deleted; a failing delete (`canDelete item = false`) is
caught, logged with the failure marker, and the file kept — never fatal.
`ageDays item` is the source's `(today - date.fromtimestamp(mtime)).days`.
Returns the remaining listing and the log. -/
def retire_old_files : List String → (String → Int) → (String → Bool) →
    List String × List LogLine
  | [], _, _ => ([], [])
  | item :: rest, ageDays, canDelete =>
    let r := retire_old_files rest ageDays canDelete
    if strStartsWith item "__" && strEndsWith item ".shp" then
      if 30 ≤ ageDays item then
        if canDelete item then
          (r.1, ⟨"", item ++ " deleted as " ++ toString (ageDays item) ++ " days old"⟩ :: r.2)
        else
          (item :: r.1,
            ⟨"~", "Unable to delete " ++ item ++ ". " ++ toString (ageDays item) ++ " days old"⟩ :: r.2)
      else (item :: r.1, r.2)
    else (item :: r.1, r.2)

/-! ## Helper lemmas -/

theorem fieldIndex?_getElem? (f : String) :
    ∀ (fields : List String) (i : Nat), fieldIndex? fields f = some i → fields[i]? = some f := by
  intro fields
  induction fields with
  | nil => intro i h; simp [fieldIndex?] at h
  | cons g gs ih =>
    intro i h
    by_cases hg : g = f
    · subst hg
      simp [fieldIndex?] at h
      subst h
      simp
    · have hg' : (g == f) = false := by simp [hg]
      simp only [fieldIndex?, hg', Bool.false_eq_true, if_false, Option.map_eq_some'] at h
      obtain ⟨j, hj, hji⟩ := h
      subst hji
      rw [List.getElem?_cons_succ]
      exact ih j hj

theorem fieldIndex?_of_mem {f : String} :
    ∀ {fields : List String}, f ∈ fields → ∃ i, fieldIndex? fields f = some i := by
  intro fields
  induction fields with
  | nil => intro h; simp at h
  | cons g gs ih =>
    intro h
    by_cases hg : g = f
    · exact ⟨0, by simp [fieldIndex?, hg]⟩
    · have hmem : f ∈ gs := by
        rcases List.mem_cons.mp h with h1 | h1
        · exact absurd h1.symm hg
        · exact h1
      obtain ⟨i, hi⟩ := ih hmem
      exact ⟨i + 1, by simp [fieldIndex?, beq_iff_eq, hg, hi]⟩

theorem fieldIndex?_eq_none {f : String} :
    ∀ {fields : List String}, f ∉ fields → fieldIndex? fields f = none := by
  intro fields
  induction fields with
  | nil => intro _; rfl
  | cons g gs ih =>
    intro h
    have h1 : ¬ g = f := fun e => h (by simp [e])
    have h2 : f ∉ gs := fun e => h (List.mem_cons_of_mem _ e)
    simp [fieldIndex?, beq_iff_eq, h1, ih h2]

theorem rowKey_eq_getD {fields : List String} {f : String} {i : Nat}
    (h : fieldIndex? fields f = some i) (r : List String) :
    rowKey fields f r = r.getD i "" := by
  unfold rowKey
  rw [h]

theorem rowKey_alignRow {lf : List String} {f : String} (hf : f ∈ lf)
    (pf : List String) (r : List String) :
    rowKey lf f (alignRow lf pf r) = rowKey pf f r := by
  obtain ⟨i, hi⟩ := fieldIndex?_of_mem hf
  have hget := fieldIndex?_getElem? f lf i hi
  rw [rowKey_eq_getD hi]
  unfold alignRow
  rw [List.getD_eq_getElem?_getD, List.getElem?_map, hget]
  rfl

theorem contains_iff_mem {l : List String} {a : String} : l.contains a = true ↔ a ∈ l :=
  List.elem_iff

theorem filter_beq_singleton {α : Type} (f : α → String) :
    ∀ {l : List α} {r : α}, (l.map f).Nodup → r ∈ l →
      l.filter (fun a => f a == f r) = [r] := by
  intro l
  induction l with
  | nil => intro r _ hr; simp at hr
  | cons a as ih =>
    intro r hnd hr
    rw [List.map_cons, List.nodup_cons] at hnd
    obtain ⟨hna, hnas⟩ := hnd
    by_cases hfa : f a = f r
    · have hra : r = a := by
        rcases List.mem_cons.mp hr with h1 | h1
        · exact h1
        · exact absurd (by rw [hfa]; exact List.mem_map_of_mem f h1) hna
      subst hra
      rw [List.filter_cons, if_pos (by simp)]
      have hnil : as.filter (fun x => f x == f r) = [] := by
        rw [List.filter_eq_nil_iff]
        intro b hb hfb
        exact hna (by rw [← beq_iff_eq.mp hfb]; exact List.mem_map_of_mem f hb)
      rw [hnil]
    · have hras : r ∈ as := by
        rcases List.mem_cons.mp hr with h1 | h1
        · exact absurd (by rw [h1]) hfa
        · exact h1
      rw [List.filter_cons, if_neg (by simp [beq_iff_eq, hfa])]
      exact ih hnas hras

theorem delKeys_nil (polyindex : Nat) (check_list : List String) :
    delKeys polyindex check_list [] = [] := rfl

theorem delKeys_cons (polyindex : Nat) (check_list : List String)
    (row : List String) (rest : List (List String)) :
    delKeys polyindex check_list (row :: rest) =
      if check_list.contains (row.getD polyindex "") = true then
        row.getD polyindex "" :: delKeys polyindex check_list rest
      else delKeys polyindex check_list rest := by
  simp [delKeys, List.filter_cons]

theorem applyUpdates_live_fields (keyField : String) (polyindex : Nat) (check_list : List String) :
    ∀ (rows : List (List String)) (st : ScanState),
      (applyUpdates keyField polyindex check_list rows st).live.fields = st.live.fields := by
  intro rows
  induction rows with
  | nil => intro st; rfl
  | cons row rest ih =>
    intro st
    unfold applyUpdates
    by_cases hc : check_list.contains (row.getD polyindex "") = true
    · rw [if_pos hc, ih]
      rfl
    · rw [if_neg hc, ih]

theorem applyUpdates_rows (keyField : String) (polyindex : Nat) (check_list : List String) :
    ∀ (rows : List (List String)) (st : ScanState),
      (applyUpdates keyField polyindex check_list rows st).live.rows
        = st.live.rows.filter (fun row =>
            !((delKeys polyindex check_list rows).contains
              (rowKey st.live.fields keyField row))) := by
  intro rows
  induction rows with
  | nil =>
    intro st
    simp [applyUpdates, delKeys_nil]
  | cons row rest ih =>
    intro st
    unfold applyUpdates
    by_cases hc : check_list.contains (row.getD polyindex "") = true
    · rw [if_pos hc, ih]
      simp only [delete_record]
      rw [List.filter_filter, delKeys_cons, if_pos hc]
      apply List.filter_congr
      intro x _
      simp only [List.contains_cons, Bool.not_or]
      cases hb1 : (rowKey st.live.fields keyField x == row.getD polyindex "") <;>
        cases hb2 : (delKeys polyindex check_list rest).contains
          (rowKey st.live.fields keyField x) <;> rfl
    · rw [if_neg hc, ih, delKeys_cons, if_neg hc]

theorem applyUpdates_repl (keyField : String) (polyindex : Nat) (check_list : List String) :
    ∀ (rows : List (List String)) (st : ScanState),
      (applyUpdates keyField polyindex check_list rows st).replacement_records
        = st.replacement_records + (delKeys polyindex check_list rows).length := by
  intro rows
  induction rows with
  | nil => intro st; simp [applyUpdates, delKeys_nil]
  | cons row rest ih =>
    intro st
    unfold applyUpdates
    by_cases hc : check_list.contains (row.getD polyindex "") = true
    · rw [if_pos hc, ih, delKeys_cons, if_pos hc]
      simp
      omega
    · rw [if_neg hc, ih, delKeys_cons, if_neg hc]

theorem applyUpdates_new (keyField : String) (polyindex : Nat) (check_list : List String) :
    ∀ (rows : List (List String)) (st : ScanState),
      (applyUpdates keyField polyindex check_list rows st).new_records
        = st.new_records + (rows.filter (fun r =>
            !(check_list.contains (r.getD polyindex "")))).length := by
  intro rows
  induction rows with
  | nil => intro st; simp [applyUpdates]
  | cons row rest ih =>
    intro st
    unfold applyUpdates
    by_cases hc : check_list.contains (row.getD polyindex "") = true
    · rw [if_pos hc, ih, List.filter_cons, if_neg (by rw [hc]; decide)]
    · have hc' : check_list.contains (row.getD polyindex "") = false := by
        cases hb : check_list.contains (row.getD polyindex "")
        · rfl
        · exact absurd hb hc
      rw [if_neg hc, ih, List.filter_cons, if_pos (by rw [hc']; decide)]
      simp only [List.length_cons]
      omega

theorem process_updates_success_eq (keyField : String) (poly live : FC) (idx : Nat)
    (hne : poly.rows ≠ []) (hidx : fieldIndex? poly.fields keyField = some idx) :
    process_updates keyField true poly live =
      (let check_list := create_master_list live keyField
       let st := applyUpdates keyField idx check_list poly.rows
         { live := live, replacement_records := 0, new_records := 0
           logs := [⟨"", "Processing Updates"⟩] }
       { live := { fields := st.live.fields
                   rows := st.live.rows ++ poly.rows.map (alignRow live.fields poly.fields) }
         new_records := st.new_records
         replacement_records := st.replacement_records
         logs := st.logs ++ [⟨"", toString poly.rows.length ++ " shapes added to live. " ++
           toString st.new_records ++ " new and " ++
           toString st.replacement_records ++ " replacements"⟩]
         err := false }) := by
  have hn : ¬ (poly.rows.length < 1) := by
    rw [Nat.not_lt]
    exact Nat.one_le_iff_ne_zero.mpr (fun h => hne (List.length_eq_zero.mp h))
  have hcond : ¬ ((true : Bool) = false ∨ poly.rows.length < 1) := by
    rintro (h | h)
    · exact absurd h (by decide)
    · exact hn h
  unfold process_updates
  rw [if_neg (by decide : ¬ ((true : Bool) = false)), if_neg hcond,
    show get_index poly keyField = some idx from hidx]

theorem process_updates_success_spec (keyField : String) (poly live : FC) (idx : Nat)
    (hne : poly.rows ≠ []) (hidx : fieldIndex? poly.fields keyField = some idx) :
    (process_updates keyField true poly live).err = false ∧
    (process_updates keyField true poly live).live.fields = live.fields ∧
    (process_updates keyField true poly live).live.rows
      = live.rows.filter (fun row =>
          !((delKeys idx (create_master_list live keyField) poly.rows).contains
            (rowKey live.fields keyField row)))
        ++ poly.rows.map (alignRow live.fields poly.fields) ∧
    (process_updates keyField true poly live).replacement_records
      = (delKeys idx (create_master_list live keyField) poly.rows).length ∧
    (process_updates keyField true poly live).new_records
      = (poly.rows.filter (fun r =>
          !((create_master_list live keyField).contains (r.getD idx "")))).length := by
  rw [process_updates_success_eq keyField poly live idx hne hidx]
  simp only [applyUpdates_live_fields, applyUpdates_rows, applyUpdates_repl,
    applyUpdates_new, Nat.zero_add]
  exact ⟨trivial, trivial, trivial, trivial, trivial⟩

theorem process_updates_empty_eq (keyField : String) (poly live : FC) (hne : poly.rows = []) :
    process_updates keyField true poly live =
      { live := live, new_records := 0, replacement_records := 0
        logs := [⟨"", "Processing Updates"⟩, ⟨"", "No updates to process"⟩], err := false } := by
  unfold process_updates
  rw [if_neg (by decide : ¬ ((true : Bool) = false)),
    if_pos (Or.inr (by rw [hne]; decide))]
  rfl

theorem bool_eq_false {b : Bool} (h : ¬ b = true) : b = false := by
  cases b
  · rfl
  · exact absurd rfl h

theorem retire_fst_eq (ageDays : String → Int) (canDelete : String → Bool) :
    ∀ names : List String,
      (retire_old_files names ageDays canDelete).1
        = names.filter (fun item =>
            !(strStartsWith item "__" && strEndsWith item ".shp" &&
              decide (30 ≤ ageDays item) && canDelete item)) := by
  intro names
  induction names with
  | nil => rfl
  | cons a rest ih =>
    unfold retire_old_files
    by_cases hs : strStartsWith a "__" = true
    · by_cases he : strEndsWith a ".shp" = true
      · by_cases h2 : (30 : Int) ≤ ageDays a
        · by_cases h3 : canDelete a = true
          · simp [hs, he, h2, h3, List.filter_cons, ih]
          · simp [hs, he, h2, bool_eq_false h3, List.filter_cons, ih]
        · simp [hs, he, h2, List.filter_cons, ih]
      · simp [hs, bool_eq_false he, List.filter_cons, ih]
    · simp [bool_eq_false hs, List.filter_cons, ih]

theorem retire_fail_logged (ageDays : String → Int) (canDelete : String → Bool) (item : String) :
    ∀ names : List String, item ∈ names →
      strStartsWith item "__" = true → strEndsWith item ".shp" = true →
      30 ≤ ageDays item → canDelete item = false →
      (⟨"~", "Unable to delete " ++ item ++ ". " ++ toString (ageDays item) ++ " days old"⟩ :
        LogLine) ∈ (retire_old_files names ageDays canDelete).2 := by
  intro names
  induction names with
  | nil => intro h; simp at h
  | cons a rest ih =>
    intro hmem hs he h30 hcd
    unfold retire_old_files
    rcases List.mem_cons.mp hmem with h1 | h1
    · subst h1
      rw [if_pos (by rw [hs, he]; rfl), if_pos h30, if_neg (by rw [hcd]; decide)]
      exact List.mem_cons_self _ _
    · have hrec := ih h1 hs he h30 hcd
      by_cases hb1 : (strStartsWith a "__" && strEndsWith a ".shp") = true
      · rw [if_pos hb1]
        by_cases hb2 : (30 : Int) ≤ ageDays a
        · rw [if_pos hb2]
          by_cases hb3 : canDelete a = true
          · rw [if_pos hb3]
            exact List.mem_cons_of_mem _ hrec
          · rw [if_neg hb3]
            exact List.mem_cons_of_mem _ hrec
        · rw [if_neg hb2]
          exact hrec
      · rw [if_neg hb1]
        exact hrec

/-! ## Claim theorems: the Reconciler -/

/-- C1, counterexample to the claim as stated: with an initially empty (so
trivially duplicate-free) live collection and a candidate set whose two rows
share the key value "K", `process_updates` completes without error yet leaves
two live rows with key "K". -/
theorem process_updates_duplicate_keys_cex :
    (create_master_list ⟨["KEY"], []⟩ "KEY").Nodup ∧
    (process_updates "KEY" true ⟨["KEY"], [["K"], ["K"]]⟩ ⟨["KEY"], []⟩).err = false ∧
    ¬ (create_master_list
        (process_updates "KEY" true ⟨["KEY"], [["K"], ["K"]]⟩ ⟨["KEY"], []⟩).live "KEY").Nodup := by
  decide

/-- C1 (amended): for every live collection keyed by the key field with at
most one row per key value, and every candidate set containing the key field
whose rows have pairwise-distinct key values, the Reconciler completes
without error and afterwards no two rows in the live collection share a key
value. -/
theorem process_updates_key_uniqueness (keyField : String) (poly live : FC)
    (hkl : keyField ∈ live.fields) (hkp : keyField ∈ poly.fields)
    (hlive : (create_master_list live keyField).Nodup)
    (hpoly : (poly.rows.map (rowKey poly.fields keyField)).Nodup) :
    (process_updates keyField true poly live).err = false ∧
    (create_master_list (process_updates keyField true poly live).live keyField).Nodup := by
  by_cases hne : poly.rows = []
  · rw [process_updates_empty_eq keyField poly live hne]
    exact ⟨rfl, hlive⟩
  · obtain ⟨idx, hidx⟩ := fieldIndex?_of_mem hkp
    obtain ⟨herr, hfields, hrows, -, -⟩ :=
      process_updates_success_spec keyField poly live idx hne hidx
    refine ⟨herr, ?_⟩
    unfold create_master_list
    rw [hfields, hrows, List.map_append, List.map_map]
    have hcomp : List.map (rowKey live.fields keyField ∘ alignRow live.fields poly.fields)
        poly.rows = List.map (rowKey poly.fields keyField) poly.rows :=
      List.map_congr_left (fun r _ => rowKey_alignRow hkl poly.fields r)
    rw [hcomp, List.nodup_append]
    refine ⟨?_, hpoly, ?_⟩
    · exact List.Nodup.sublist ((List.filter_sublist _).map _) hlive
    · intro x hx1 hx2
      rw [List.mem_map] at hx1
      obtain ⟨row, hrow, hrk⟩ := hx1
      rw [List.mem_filter] at hrow
      obtain ⟨hrowmem, hP⟩ := hrow
      rw [Bool.not_eq_true'] at hP
      have hxdel : x ∈ delKeys idx (create_master_list live keyField) poly.rows := by
        unfold delKeys
        rw [List.mem_filter]
        constructor
        · rw [List.map_congr_left (fun r _ => (rowKey_eq_getD hidx r).symm)]
          exact hx2
        · apply contains_iff_mem.mpr
          unfold create_master_list
          rw [List.mem_map]
          exact ⟨row, hrowmem, hrk⟩
      rw [hrk] at hP
      have hc := contains_iff_mem.mpr hxdel
      rw [hP] at hc
      exact absurd hc (by decide)

/-- C1 witness: the amended statement at the spec's own scenario (live keys
A and B, candidate keys A and C). -/
theorem process_updates_key_uniqueness_witness :
    (process_updates "KEY" true ⟨["KEY", "VAL"], [["A", "v2"], ["C", "v1"]]⟩
        ⟨["KEY", "VAL"], [["A", "v1"], ["B", "v1"]]⟩).err = false ∧
    (create_master_list (process_updates "KEY" true ⟨["KEY", "VAL"], [["A", "v2"], ["C", "v1"]]⟩
        ⟨["KEY", "VAL"], [["A", "v1"], ["B", "v1"]]⟩).live "KEY").Nodup :=
  process_updates_key_uniqueness "KEY" ⟨["KEY", "VAL"], [["A", "v2"], ["C", "v1"]]⟩
    ⟨["KEY", "VAL"], [["A", "v1"], ["B", "v1"]]⟩ (by decide) (by decide) (by decide) (by decide)

/-- C2, counterexample to the claim as stated: a candidate set with two rows
sharing key "K" completes without error, but key "K" then maps to two live
rows, not exactly one. -/
theorem process_updates_postcondition_cex :
    (process_updates "KEY" true ⟨["KEY", "VAL"], [["K", "1"], ["K", "2"]]⟩
        ⟨["KEY", "VAL"], []⟩).err = false ∧
    ¬ (((process_updates "KEY" true ⟨["KEY", "VAL"], [["K", "1"], ["K", "2"]]⟩
        ⟨["KEY", "VAL"], []⟩).live.rows.filter
          (fun row => rowKey ["KEY", "VAL"] "KEY" row == "K")).length = 1) := by
  decide

/-- C2 (amended): for every live collection keyed by the key field and every
non-empty candidate set containing the key field whose rows have
pairwise-distinct key values, the Reconciler completes without error; every
candidate row's key then maps to exactly one live row, namely that candidate
row's data as landed by the NO_TEST append; and the reported counts classify
each candidate row as a replacement exactly when its key is in the pre-run
master list and as new otherwise. -/
theorem process_updates_postcondition (keyField : String) (poly live : FC)
    (hkl : keyField ∈ live.fields) (hkp : keyField ∈ poly.fields) (hne : poly.rows ≠ [])
    (hpoly : (poly.rows.map (rowKey poly.fields keyField)).Nodup) :
    (process_updates keyField true poly live).err = false ∧
    (∀ r ∈ poly.rows,
      (process_updates keyField true poly live).live.rows.filter
          (fun row => rowKey live.fields keyField row == rowKey poly.fields keyField r)
        = [alignRow live.fields poly.fields r]) ∧
    (process_updates keyField true poly live).replacement_records
      = (poly.rows.filter (fun r =>
          (create_master_list live keyField).contains (rowKey poly.fields keyField r))).length ∧
    (process_updates keyField true poly live).new_records
      = (poly.rows.filter (fun r =>
          !((create_master_list live keyField).contains (rowKey poly.fields keyField r)))).length := by
  obtain ⟨idx, hidx⟩ := fieldIndex?_of_mem hkp
  obtain ⟨herr, hfields, hrows, hrepl, hnew⟩ :=
    process_updates_success_spec keyField poly live idx hne hidx
  refine ⟨herr, ?_, ?_, ?_⟩
  · intro r hr
    rw [hrows, List.filter_append]
    have hleft : (live.rows.filter (fun row =>
        !((delKeys idx (create_master_list live keyField) poly.rows).contains
          (rowKey live.fields keyField row)))).filter
        (fun row => rowKey live.fields keyField row == rowKey poly.fields keyField r) = [] := by
      rw [List.filter_filter, List.filter_eq_nil_iff]
      intro row hrowmem hcontra
      rw [Bool.and_eq_true] at hcontra
      obtain ⟨heq, hP⟩ := hcontra
      rw [Bool.not_eq_true'] at hP
      have heq' : rowKey live.fields keyField row = rowKey poly.fields keyField r :=
        beq_iff_eq.mp heq
      have hrowcl : rowKey live.fields keyField row ∈ create_master_list live keyField :=
        List.mem_map_of_mem _ hrowmem
      have hdel : rowKey live.fields keyField row ∈
          delKeys idx (create_master_list live keyField) poly.rows := by
        unfold delKeys
        rw [List.mem_filter]
        refine ⟨?_, contains_iff_mem.mpr hrowcl⟩
        rw [List.map_congr_left (fun a _ => (rowKey_eq_getD hidx a).symm), heq']
        exact List.mem_map_of_mem _ hr
      have hc := contains_iff_mem.mpr hdel
      rw [hP] at hc
      exact absurd hc (by decide)
    have hright : (poly.rows.map (alignRow live.fields poly.fields)).filter
        (fun row => rowKey live.fields keyField row == rowKey poly.fields keyField r)
        = [alignRow live.fields poly.fields r] := by
      rw [List.filter_map]
      have hcongr : poly.rows.filter
          ((fun row => rowKey live.fields keyField row == rowKey poly.fields keyField r) ∘
            alignRow live.fields poly.fields)
          = poly.rows.filter
            (fun a => rowKey poly.fields keyField a == rowKey poly.fields keyField r) := by
        apply List.filter_congr
        intro a _
        show (rowKey live.fields keyField (alignRow live.fields poly.fields a) ==
          rowKey poly.fields keyField r) = _
        rw [rowKey_alignRow hkl]
      rw [hcongr, filter_beq_singleton (rowKey poly.fields keyField) hpoly hr]
      rfl
    rw [hleft, hright, List.nil_append]
  · rw [hrepl]
    unfold delKeys
    rw [List.filter_map, List.length_map]
    apply congrArg List.length
    apply List.filter_congr
    intro a _
    show (create_master_list live keyField).contains (a.getD idx "") = _
    rw [rowKey_eq_getD hidx a]
  · rw [hnew]
    apply congrArg List.length
    apply List.filter_congr
    intro a _
    rw [rowKey_eq_getD hidx a]

/-- C2 witness: the spec's scenario.  Live keys A, B (both v1); candidate
rows A:v2 and C:v1; the run yields live rows B:v1, A:v2, C:v1 with exactly
one replacement and one new record, and key A maps to the single row A:v2. -/
theorem process_updates_postcondition_witness :
    (process_updates "KEY" true ⟨["KEY", "VAL"], [["A", "v2"], ["C", "v1"]]⟩
        ⟨["KEY", "VAL"], [["A", "v1"], ["B", "v1"]]⟩).live.rows
      = [["B", "v1"], ["A", "v2"], ["C", "v1"]] ∧
    (process_updates "KEY" true ⟨["KEY", "VAL"], [["A", "v2"], ["C", "v1"]]⟩
        ⟨["KEY", "VAL"], [["A", "v1"], ["B", "v1"]]⟩).replacement_records = 1 ∧
    (process_updates "KEY" true ⟨["KEY", "VAL"], [["A", "v2"], ["C", "v1"]]⟩
        ⟨["KEY", "VAL"], [["A", "v1"], ["B", "v1"]]⟩).new_records = 1 ∧
    (process_updates "KEY" true ⟨["KEY", "VAL"], [["A", "v2"], ["C", "v1"]]⟩
        ⟨["KEY", "VAL"], [["A", "v1"], ["B", "v1"]]⟩).live.rows.filter
        (fun row => rowKey ["KEY", "VAL"] "KEY" row == rowKey ["KEY", "VAL"] "KEY" ["A", "v2"])
      = [alignRow ["KEY", "VAL"] ["KEY", "VAL"] ["A", "v2"]] :=
  ⟨by decide, by decide, by decide,
    (process_updates_postcondition "KEY" ⟨["KEY", "VAL"], [["A", "v2"], ["C", "v1"]]⟩
      ⟨["KEY", "VAL"], [["A", "v1"], ["B", "v1"]]⟩ (by decide) (by decide) (by decide)
      (by decide)).2.1 ["A", "v2"] (by decide)⟩

/-- C3: every live row whose key value does not occur among the candidate
set's key values is untouched by a successful run: restricted to such keys,
the live collection is byte-identical (same rows, same order, same
multiplicity) before and after, so only rows whose key appears in the
candidate set are deleted or replaced. -/
theorem process_updates_frame (keyField : String) (poly live : FC)
    (hkl : keyField ∈ live.fields) (hkp : keyField ∈ poly.fields) :
    (process_updates keyField true poly live).err = false ∧
    (process_updates keyField true poly live).live.rows.filter
        (fun row => !((poly.rows.map (rowKey poly.fields keyField)).contains
          (rowKey live.fields keyField row)))
      = live.rows.filter
        (fun row => !((poly.rows.map (rowKey poly.fields keyField)).contains
          (rowKey live.fields keyField row))) := by
  by_cases hne : poly.rows = []
  · rw [process_updates_empty_eq keyField poly live hne]
    exact ⟨rfl, rfl⟩
  · obtain ⟨idx, hidx⟩ := fieldIndex?_of_mem hkp
    obtain ⟨herr, -, hrows, -, -⟩ :=
      process_updates_success_spec keyField poly live idx hne hidx
    refine ⟨herr, ?_⟩
    rw [hrows, List.filter_append]
    have hright : (poly.rows.map (alignRow live.fields poly.fields)).filter
        (fun row => !((poly.rows.map (rowKey poly.fields keyField)).contains
          (rowKey live.fields keyField row))) = [] := by
      rw [List.filter_eq_nil_iff]
      intro b hb
      obtain ⟨a, ha, hab⟩ := List.mem_map.mp hb
      subst hab
      rw [rowKey_alignRow hkl]
      have hc : (poly.rows.map (rowKey poly.fields keyField)).contains
          (rowKey poly.fields keyField a) = true :=
        contains_iff_mem.mpr (List.mem_map_of_mem _ ha)
      rw [hc]
      decide
    have hleft : (live.rows.filter (fun row =>
        !((delKeys idx (create_master_list live keyField) poly.rows).contains
          (rowKey live.fields keyField row)))).filter
        (fun row => !((poly.rows.map (rowKey poly.fields keyField)).contains
          (rowKey live.fields keyField row)))
        = live.rows.filter
          (fun row => !((poly.rows.map (rowKey poly.fields keyField)).contains
            (rowKey live.fields keyField row))) := by
      rw [List.filter_filter]
      apply List.filter_congr
      intro row _
      cases hq : (poly.rows.map (rowKey poly.fields keyField)).contains
          (rowKey live.fields keyField row)
      · have hdel : (delKeys idx (create_master_list live keyField) poly.rows).contains
            (rowKey live.fields keyField row) = false := by
          cases hd : (delKeys idx (create_master_list live keyField) poly.rows).contains
              (rowKey live.fields keyField row)
          · rfl
          · exfalso
            have hmem := contains_iff_mem.mp hd
            unfold delKeys at hmem
            rw [List.mem_filter] at hmem
            obtain ⟨hmem1, -⟩ := hmem
            rw [List.map_congr_left (fun a _ => (rowKey_eq_getD hidx a).symm)] at hmem1
            have hc := contains_iff_mem.mpr hmem1
            rw [hq] at hc
            exact absurd hc (by decide)
        rw [hdel]
        decide
      · simp
    rw [hright, List.append_nil, hleft]

/-- C3 witness: a live row with key D (absent from the candidate set) is
byte-identical before and after a run replacing key A. -/
theorem process_updates_frame_witness :
    (process_updates "KEY" true ⟨["KEY", "VAL"], [["A", "v2"]]⟩
        ⟨["KEY", "VAL"], [["A", "v1"], ["D", "v9"]]⟩).err = false ∧
    (process_updates "KEY" true ⟨["KEY", "VAL"], [["A", "v2"]]⟩
        ⟨["KEY", "VAL"], [["A", "v1"], ["D", "v9"]]⟩).live.rows.filter
        (fun row => !(((FC.mk ["KEY", "VAL"] [["A", "v2"]]).rows.map
            (rowKey ["KEY", "VAL"] "KEY")).contains (rowKey ["KEY", "VAL"] "KEY" row)))
      = (FC.mk ["KEY", "VAL"] [["A", "v1"], ["D", "v9"]]).rows.filter
        (fun row => !(((FC.mk ["KEY", "VAL"] [["A", "v2"]]).rows.map
            (rowKey ["KEY", "VAL"] "KEY")).contains (rowKey ["KEY", "VAL"] "KEY" row))) :=
  process_updates_frame "KEY" ⟨["KEY", "VAL"], [["A", "v2"]]⟩
    ⟨["KEY", "VAL"], [["A", "v1"], ["D", "v9"]]⟩ (by decide) (by decide)

/-- C4 (code bug): the source computes `GetCount_management(self.poly_fc)`
on line 377 *before* the `arcpy.Exists(self.poly_fc)` test on line 379, so
when the candidate set does not exist the count call raises and the method
errors out without reporting "No updates to process" — the existence
disjunct its own line 379 writes (and its docstring's "First checks whether
there are any updates to process") never gets to fire.  The
zero-rows half of the precondition does behave as claimed: no mutation, the
"No updates to process" report, no error. -/
theorem process_updates_missing_candidate_bug (keyField : String) (poly live : FC) :
    ((process_updates keyField false poly live).err = true ∧
     (process_updates keyField false poly live).live = live ∧
     (⟨"", "No updates to process"⟩ : LogLine) ∉ (process_updates keyField false poly live).logs) ∧
    (poly.rows = [] →
     (process_updates keyField true poly live).err = false ∧
     (process_updates keyField true poly live).live = live ∧
     (process_updates keyField true poly live).logs
       = [⟨"", "Processing Updates"⟩, ⟨"", "No updates to process"⟩]) := by
  constructor
  · refine ⟨rfl, rfl, ?_⟩
    have hlog : (process_updates keyField false poly live).logs
        = [⟨"", "Processing Updates"⟩] := rfl
    rw [hlog]
    decide
  · intro hne
    rw [process_updates_empty_eq keyField poly live hne]
    exact ⟨rfl, rfl, rfl⟩

/-- C4 witness: a missing candidate set errors out with no "No updates"
report, while an existing zero-row candidate set reports "No updates to
process" and leaves the live collection untouched. -/
theorem process_updates_missing_candidate_bug_witness :
    ((process_updates "KEY" false ⟨["KEY"], []⟩ ⟨["KEY"], [["A"]]⟩).err = true ∧
     (process_updates "KEY" false ⟨["KEY"], []⟩ ⟨["KEY"], [["A"]]⟩).live = ⟨["KEY"], [["A"]]⟩ ∧
     (⟨"", "No updates to process"⟩ : LogLine) ∉
       (process_updates "KEY" false ⟨["KEY"], []⟩ ⟨["KEY"], [["A"]]⟩).logs) ∧
    ((process_updates "KEY" true ⟨["KEY"], []⟩ ⟨["KEY"], [["A"]]⟩).err = false ∧
     (process_updates "KEY" true ⟨["KEY"], []⟩ ⟨["KEY"], [["A"]]⟩).live = ⟨["KEY"], [["A"]]⟩ ∧
     (process_updates "KEY" true ⟨["KEY"], []⟩ ⟨["KEY"], [["A"]]⟩).logs
       = [⟨"", "Processing Updates"⟩, ⟨"", "No updates to process"⟩]) :=
  ⟨(process_updates_missing_candidate_bug "KEY" ⟨["KEY"], []⟩ ⟨["KEY"], [["A"]]⟩).1,
   (process_updates_missing_candidate_bug "KEY" ⟨["KEY"], []⟩ ⟨["KEY"], [["A"]]⟩).2 rfl⟩

/-- C5: on a non-empty candidate set missing the key field, the run aborts
(`get_index` logs its ValueError line and returns None, and the scan's first
`row[polyindex]` access then raises before touching any live row), the live
collection is completely unchanged, and exactly one failure-marker line is
emitted by the Reconciler. -/
theorem process_updates_missing_key_field_abort (keyField : String) (poly live : FC)
    (hne : poly.rows ≠ []) (hkp : keyField ∉ poly.fields) :
    (process_updates keyField true poly live).err = true ∧
    (process_updates keyField true poly live).live = live ∧
    (process_updates keyField true poly live).logs
      = [⟨"", "Processing Updates"⟩, ⟨"~", "Unable to find " ++ keyField ++ " in poly"⟩] ∧
    ((process_updates keyField true poly live).logs.filter
        (fun l => l.marker == "~")).length = 1 := by
  have hnone : get_index poly keyField = none := fieldIndex?_eq_none hkp
  have heq : process_updates keyField true poly live =
      { live := live, new_records := 0, replacement_records := 0
        logs := [⟨"", "Processing Updates"⟩, ⟨"~", "Unable to find " ++ keyField ++ " in poly"⟩]
        err := true } := by
    have hn : ¬ (poly.rows.length < 1) := by
      rw [Nat.not_lt]
      exact Nat.one_le_iff_ne_zero.mpr (fun h => hne (List.length_eq_zero.mp h))
    have hcond : ¬ ((true : Bool) = false ∨ poly.rows.length < 1) := by
      rintro (h | h)
      · exact absurd h (by decide)
      · exact hn h
    unfold process_updates
    rw [if_neg (by decide : ¬ ((true : Bool) = false)), if_neg hcond, hnone]
    rfl
  rw [heq]
  refine ⟨rfl, rfl, rfl, ?_⟩
  have h1 : (("" : String) == "~") = false := by decide
  have h2 : (("~" : String) == "~") = true := by decide
  simp [List.filter_cons, h1, h2]

/-- C5 witness: a one-row candidate set whose only field is "OTHER", against
a live collection keyed by "KEY". -/
theorem process_updates_missing_key_field_abort_witness :
    (process_updates "KEY" true ⟨["OTHER"], [["x"]]⟩ ⟨["KEY"], [["A"]]⟩).err = true ∧
    (process_updates "KEY" true ⟨["OTHER"], [["x"]]⟩ ⟨["KEY"], [["A"]]⟩).live
      = ⟨["KEY"], [["A"]]⟩ ∧
    (process_updates "KEY" true ⟨["OTHER"], [["x"]]⟩ ⟨["KEY"], [["A"]]⟩).logs
      = [⟨"", "Processing Updates"⟩, ⟨"~", "Unable to find " ++ "KEY" ++ " in poly"⟩] ∧
    ((process_updates "KEY" true ⟨["OTHER"], [["x"]]⟩ ⟨["KEY"], [["A"]]⟩).logs.filter
        (fun l => l.marker == "~")).length = 1 :=
  process_updates_missing_key_field_abort "KEY" ⟨["OTHER"], [["x"]]⟩ ⟨["KEY"], [["A"]]⟩
    (by decide) (by decide)

/-! ## Claim theorems: the Verifier -/

/-- C6 (code bug): at the row " A " (space, A, space) the source counts the
row valid and stores the value unchanged, because line 154's
`row[0].strip()` discards its result — so the validity test sees the
untrimmed length 3; the function's own docstring "Strips whitespace" (and
the claim) instead demand the stored value "A" and an invalid row, since the
trimmed length 1 is not greater than 1. -/
theorem verify_key_field_trim_discarded :
    verify_key_field [" A "] = ([" A "], 1, 0) ∧
    verify_key_field_spec [" A "] = (["A"], 0, 1) ∧
    verify_key_field [" A "] ≠ verify_key_field_spec [" A "] := by
  decide

/-- C7: a discovered, readable file with at least one field and the key
field present is placed in the verified list exactly when it has at least
one valid row; with zero valid rows it goes to the dud list and is excluded
from the verified (merge) list; a mixed file's log line reports both counts;
and the Verifier deletes nothing from the folder. -/
theorem verify_shapes_acceptance (folder : Folder) (keyField item : String)
    (hdisc : item ∈ create_list_of_shapes_to_verify folder.names)
    (hread : (folder.content item).readable = true)
    (hfields : (folder.content item).fields ≠ [])
    (hkey : (folder.content item).fields.contains keyField = true) :
    (item ∈ (verify_shapes folder keyField).good ↔
      0 < (verify_key_field (folder.content item).keyRows).2.1) ∧
    ((verify_key_field (folder.content item).keyRows).2.1 = 0 →
      item ∈ (verify_shapes folder keyField).dud ∧
      item ∉ (verify_shapes folder keyField).good) ∧
    (0 < (verify_key_field (folder.content item).keyRows).2.1 →
      0 < (verify_key_field (folder.content item).keyRows).2.2 →
      (⟨"", "Verified " ++ item ++ " with " ++
          toString (verify_key_field (folder.content item).keyRows).2.1 ++ " valid and " ++
          toString (verify_key_field (folder.content item).keyRows).2.2 ++
          " invalid shape(s)"⟩ : LogLine) ∈ (verify_shapes folder keyField).logs) ∧
    (verify_shapes folder keyField).folderNames = folder.names := by
  have hie : (folder.content item).fields.isEmpty = false := by
    cases hb : (folder.content item).fields.isEmpty
    · rfl
    · exact absurd (List.isEmpty_iff.mp hb) hfields
  have hgood : isGoodFile folder keyField item
      = !((verify_key_field (folder.content item).keyRows).2.1 == 0) := by
    simp only [isGoodFile]
    rw [hread, hie, hkey]
    simp
  have hdud : isDudFile folder keyField item
      = ((verify_key_field (folder.content item).keyRows).2.1 == 0) := by
    simp only [isDudFile]
    rw [hread, hie, hkey]
    simp
  refine ⟨?_, ?_, ?_, rfl⟩
  · simp only [verify_shapes]
    rw [List.mem_filter, hgood]
    constructor
    · rintro ⟨-, h2⟩
      rw [Bool.not_eq_true'] at h2
      exact Nat.pos_of_ne_zero (beq_eq_false_iff_ne.mp h2)
    · intro hv
      refine ⟨hdisc, ?_⟩
      rw [Bool.not_eq_true']
      exact beq_eq_false_iff_ne.mpr (Nat.pos_iff_ne_zero.mp hv)
  · intro hv0
    constructor
    · simp only [verify_shapes]
      rw [List.mem_filter, hdud]
      exact ⟨hdisc, by rw [hv0]; rfl⟩
    · simp only [verify_shapes]
      rw [List.mem_filter, hgood]
      rintro ⟨-, h2⟩
      rw [hv0] at h2
      exact absurd h2 (by decide)
  · intro hv hinv
    have hvm : verify_message folder keyField item
        = ⟨"", "Verified " ++ item ++ " with " ++
            toString (verify_key_field (folder.content item).keyRows).2.1 ++ " valid and " ++
            toString (verify_key_field (folder.content item).keyRows).2.2 ++
            " invalid shape(s)"⟩ := by
      simp only [verify_message]
      rw [hread, hie, hkey]
      rw [if_neg (by decide), if_neg (by decide), if_neg (by decide)]
      rw [if_neg (by rw [beq_eq_false_iff_ne.mpr (Nat.pos_iff_ne_zero.mp hv)]; decide),
        if_pos hinv]
    simp only [verify_shapes]
    apply List.mem_append.mpr
    apply Or.inl
    rw [← hvm]
    exact List.mem_map_of_mem _ hdisc

/-- C7 witness: one discovered file with rows AAA, BBB, CCC (valid) and "",
" " (invalid): accepted with three valid and two invalid rows, reported, and
nothing deleted. -/
theorem verify_shapes_acceptance_witness :
    ("X.shp" ∈ (verify_shapes ⟨["X.shp"],
        fun _ => ⟨["KEY"], ["AAA", "BBB", "CCC", "", " "], true⟩⟩ "KEY").good ↔
      0 < (verify_key_field ((⟨["KEY"], ["AAA", "BBB", "CCC", "", " "], true⟩ :
        ShapeData)).keyRows).2.1) ∧
    ((verify_key_field ((⟨["KEY"], ["AAA", "BBB", "CCC", "", " "], true⟩ :
        ShapeData)).keyRows).2.1 = 0 →
      "X.shp" ∈ (verify_shapes ⟨["X.shp"],
        fun _ => ⟨["KEY"], ["AAA", "BBB", "CCC", "", " "], true⟩⟩ "KEY").dud ∧
      "X.shp" ∉ (verify_shapes ⟨["X.shp"],
        fun _ => ⟨["KEY"], ["AAA", "BBB", "CCC", "", " "], true⟩⟩ "KEY").good) ∧
    (0 < (verify_key_field ((⟨["KEY"], ["AAA", "BBB", "CCC", "", " "], true⟩ :
        ShapeData)).keyRows).2.1 →
      0 < (verify_key_field ((⟨["KEY"], ["AAA", "BBB", "CCC", "", " "], true⟩ :
        ShapeData)).keyRows).2.2 →
      (⟨"", "Verified " ++ "X.shp" ++ " with " ++
          toString (verify_key_field ((⟨["KEY"], ["AAA", "BBB", "CCC", "", " "], true⟩ :
            ShapeData)).keyRows).2.1 ++ " valid and " ++
          toString (verify_key_field ((⟨["KEY"], ["AAA", "BBB", "CCC", "", " "], true⟩ :
            ShapeData)).keyRows).2.2 ++
          " invalid shape(s)"⟩ : LogLine) ∈ (verify_shapes ⟨["X.shp"],
        fun _ => ⟨["KEY"], ["AAA", "BBB", "CCC", "", " "], true⟩⟩ "KEY").logs) ∧
    (verify_shapes ⟨["X.shp"],
        fun _ => ⟨["KEY"], ["AAA", "BBB", "CCC", "", " "], true⟩⟩ "KEY").folderNames
      = ["X.shp"] :=
  verify_shapes_acceptance ⟨["X.shp"], fun _ => ⟨["KEY"], ["AAA", "BBB", "CCC", "", " "], true⟩⟩
    "KEY" "X.shp" (by decide) (by decide) (by decide) (by decide)

/-- C8, counterexample to the claim as stated: in the listing
["X.shp", "XY.shp.lock"] the only lock file belongs to the stem "XY", so
"X.shp" has no same-stem lock-file sibling and the claim admits it; but
`has_lock_file` matches lock names by *stem-prefixed* string matching
("XY.shp.lock" starts with "X"), so the code excludes "X.shp" too. -/
theorem create_list_lock_stem_cex :
    create_list_of_shapes_to_verify ["X.shp", "XY.shp.lock"] = [] ∧
    candidates_spec ["X.shp", "XY.shp.lock"] = ["X.shp"] ∧
    create_list_of_shapes_to_verify ["X.shp", "XY.shp.lock"]
      ≠ candidates_spec ["X.shp", "XY.shp.lock"] := by
  decide

/-- C8 (amended): the candidate list holds exactly the listed names that end
in ".shp", do not start with the "__" processed marker, and have no
*stem-prefixed* lock sibling — a listed name that starts with the
candidate's stem (its name with the final four characters ".shp" removed)
and ends in "lock".  Lock-matching is by prefix, not same-stem.  Exclusion
is by pure filtering: nothing is renamed or mutated, so a skipped file is
re-evaluated from the same listing next run, and a "__"-prefixed name is
never selected. -/
theorem create_list_membership (names : List String) (item : String) :
    item ∈ create_list_of_shapes_to_verify names ↔
      item ∈ names ∧ strEndsWith item ".shp" = true ∧ strStartsWith item "__" = false ∧
        ¬ ∃ lock ∈ names, strStartsWith lock (strDropRight item 4) = true ∧
          strEndsWith lock "lock" = true := by
  unfold create_list_of_shapes_to_verify has_lock_file
  rw [List.mem_filter]
  simp only [Bool.and_eq_true, Bool.not_eq_true', List.any_eq_true, and_assoc]
  constructor
  · rintro ⟨h1, h2, h3, h4⟩
    refine ⟨h1, h2, h3, ?_⟩
    rintro ⟨lock, hlock, hs, he⟩
    have : names.any (fun n => strStartsWith n (strDropRight item 4) &&
        strEndsWith n "lock") = true :=
      List.any_eq_true.mpr ⟨lock, hlock, by rw [hs, he]; rfl⟩
    rw [h4] at this
    exact absurd this (by decide)
  · rintro ⟨h1, h2, h3, h4⟩
    refine ⟨h1, h2, h3, ?_⟩
    cases hb : names.any (fun n => strStartsWith n (strDropRight item 4) &&
        strEndsWith n "lock")
    · rfl
    · exfalso
      obtain ⟨lock, hlock, hpred⟩ := List.any_eq_true.mp hb
      rw [Bool.and_eq_true] at hpred
      exact h4 ⟨lock, hlock, hpred.1, hpred.2⟩

/-- C9: a listed file is retired (removed) exactly when it carries the "__"
processed marker, ends in ".shp", is at least 30 days old, and its deletion
succeeds; a deletion failure is logged with the failure marker and is not
fatal (the embedding is total and the file is simply kept). -/
theorem retire_old_files_spec (names : List String) (ageDays : String → Int)
    (canDelete : String → Bool) (item : String) :
    (item ∈ (retire_old_files names ageDays canDelete).1 ↔
      item ∈ names ∧ ¬(strStartsWith item "__" = true ∧ strEndsWith item ".shp" = true ∧
        30 ≤ ageDays item ∧ canDelete item = true)) ∧
    (item ∈ names → strStartsWith item "__" = true → strEndsWith item ".shp" = true →
      30 ≤ ageDays item → canDelete item = false →
      (⟨"~", "Unable to delete " ++ item ++ ". " ++ toString (ageDays item) ++ " days old"⟩ :
        LogLine) ∈ (retire_old_files names ageDays canDelete).2) := by
  constructor
  · rw [retire_fst_eq, List.mem_filter]
    simp only [Bool.not_eq_true', Bool.and_eq_true, decide_eq_true_eq]
    constructor
    · rintro ⟨h1, h2⟩
      refine ⟨h1, ?_⟩
      rintro ⟨hs, he, h30, hc⟩
      rw [hs, he, hc, decide_eq_true h30] at h2
      exact absurd h2 (by decide)
    · rintro ⟨h1, h2⟩
      refine ⟨h1, ?_⟩
      cases hb : (strStartsWith item "__" && strEndsWith item ".shp" &&
          decide (30 ≤ ageDays item) && canDelete item)
      · rfl
      · exfalso
        rw [Bool.and_eq_true, Bool.and_eq_true, Bool.and_eq_true] at hb
        exact h2 ⟨hb.1.1.1, hb.1.1.2, of_decide_eq_true hb.1.2, hb.2⟩
  · intro h1 h2 h3 h4 h5
    exact retire_fail_logged ageDays canDelete item names h1 h2 h3 h4 h5

/-- C9 witness: a processed file 31 days old is deleted, one 29 days old is
retained (all deletions succeeding). -/
theorem retire_old_files_spec_witness :
    ("__X.shp" ∉ (retire_old_files ["__X.shp", "__Y.shp"]
        (fun s => if s = "__X.shp" then (31 : Int) else 29) (fun _ => true)).1) ∧
    ("__Y.shp" ∈ (retire_old_files ["__X.shp", "__Y.shp"]
        (fun s => if s = "__X.shp" then (31 : Int) else 29) (fun _ => true)).1) :=
  ⟨fun h => absurd ((retire_old_files_spec ["__X.shp", "__Y.shp"]
      (fun s => if s = "__X.shp" then (31 : Int) else 29) (fun _ => true) "__X.shp").1.mp h)
      (by decide),
   (retire_old_files_spec ["__X.shp", "__Y.shp"]
      (fun s => if s = "__X.shp" then (31 : Int) else 29) (fun _ => true) "__Y.shp").1.mpr
      (by decide)⟩

/-- C10: every item in the Verifier's good list came from
`create_list_of_shapes_to_verify`, whose filter guarantees exactly the
precondition `rename_shape` asserts at line 460: the name ends in ".shp" and
does not start with "__". -/
theorem verified_shapes_rename_precondition (folder : Folder) (keyField item : String)
    (h : item ∈ (verify_shapes folder keyField).good) :
    rename_shape_assert item := by
  simp only [verify_shapes] at h
  rw [List.mem_filter] at h
  obtain ⟨hin, -⟩ := h
  unfold create_list_of_shapes_to_verify at hin
  rw [List.mem_filter] at hin
  obtain ⟨-, hpred⟩ := hin
  rw [Bool.and_eq_true, Bool.and_eq_true] at hpred
  obtain ⟨⟨h1, h2⟩, -⟩ := hpred
  rw [Bool.not_eq_true'] at h2
  exact ⟨h1, h2⟩

/-- C10 witness: the assert's precondition holds for a concretely verified
file. -/
theorem verified_shapes_rename_precondition_witness : rename_shape_assert "X.shp" :=
  verified_shapes_rename_precondition ⟨["X.shp"], fun _ => ⟨["KEY"], ["AB"], true⟩⟩
    "KEY" "X.shp" (by decide)

end Concerto
